import Mathlib

/-
Verification development for the redex CFG / constant-propagation core:
a shallow embedding of src/libredex/ConstantAbstractDomain.h and
src/libredex/ControlFlow.h, followed by theorems about the embedded
definitions.
-/

namespace Redex

/-- Modelled from the spec: the tag of a lattice element, the `Kind`
enumeration of the `AbstractValue` base class declared in `AbstractDomain.h`,
a header that is not part of this source tree. The spec gives
tag in Bottom, Value, Top. -/
inductive Kind where
  | Bottom : Kind
  | Value : Kind
  | Top : Kind
deriving DecidableEq, Repr

namespace acd_impl

/-- The value part of the flat lattice: a wrapper around one constant,
`acd_impl::ConstantAbstractValue` of `ConstantAbstractDomain.h`
(lines 46-104). -/
structure ConstantAbstractValue (C : Type) where
  m_constant : C
deriving DecidableEq

/-- Source `ConstantAbstractValue::get_constant` (line 100). -/
def ConstantAbstractValue.get_constant {C : Type}
    (a : ConstantAbstractValue C) : C :=
  a.m_constant

/-- Source `ConstantAbstractValue::equals` (lines 74-76): constants are compared
with `operator==`, modelled by decidable equality on the constant type. -/
def ConstantAbstractValue.equals {C : Type} [DecidableEq C]
    (a b : ConstantAbstractValue C) : Bool :=
  decide (a.m_constant = b.get_constant)

/-- Source `ConstantAbstractValue::leq` (lines 70-72): plain `equals`. -/
def ConstantAbstractValue.leq {C : Type} [DecidableEq C]
    (a b : ConstantAbstractValue C) : Bool :=
  a.equals b

/-- Source `ConstantAbstractValue::join_with` (lines 78-83): Value when the two
constants are equal, Top otherwise; the receiver keeps its constant. -/
def ConstantAbstractValue.join_with {C : Type} [DecidableEq C]
    (a b : ConstantAbstractValue C) : Kind :=
  if a.equals b then Kind.Value else Kind.Top

/-- Source `ConstantAbstractValue::widen_with` (lines 85-87): defined as
`join_with`. -/
def ConstantAbstractValue.widen_with {C : Type} [DecidableEq C]
    (a b : ConstantAbstractValue C) : Kind :=
  a.join_with b

/-- Source `ConstantAbstractValue::meet_with` (lines 89-94): Value when the two
constants are equal, Bottom otherwise. -/
def ConstantAbstractValue.meet_with {C : Type} [DecidableEq C]
    (a b : ConstantAbstractValue C) : Kind :=
  if a.equals b then Kind.Value else Kind.Bottom

/-- Source `ConstantAbstractValue::narrow_with` (lines 96-98): defined as
`meet_with`. -/
def ConstantAbstractValue.narrow_with {C : Type} [DecidableEq C]
    (a b : ConstantAbstractValue C) : Kind :=
  a.meet_with b

end acd_impl

/-- Modelled from the spec: `AbstractDomainScaffolding` (declared in
`AbstractDomain.h`, which is not part of this source tree) wraps a lattice
value in a uniform Top/Bottom/Value state machine, the tag fully determining
whether a constant is present. It is embedded as the closed sum of the three
tags, with the `acd_impl.ConstantAbstractValue` stored in the Value state. -/
inductive ConstantAbstractDomain (C : Type) where
  | Bottom : ConstantAbstractDomain C
  | Value : acd_impl.ConstantAbstractValue C → ConstantAbstractDomain C
  | Top : ConstantAbstractDomain C
deriving DecidableEq

/-- The scaffolding's `kind()` accessor: the tag of the element. -/
def ConstantAbstractDomain.kind {C : Type} :
    ConstantAbstractDomain C → Kind
  | ConstantAbstractDomain.Bottom => Kind.Bottom
  | ConstantAbstractDomain.Value _ => Kind.Value
  | ConstantAbstractDomain.Top => Kind.Top

/-- Source `ConstantAbstractDomain::bottom` (lines 133-135): the element built from
`AbstractValueKind::Bottom`. -/
def ConstantAbstractDomain.bottom {C : Type} : ConstantAbstractDomain C :=
  ConstantAbstractDomain.Bottom

/-- Source `ConstantAbstractDomain::top` (lines 137-139): the element built from
`AbstractValueKind::Top`. -/
def ConstantAbstractDomain.top {C : Type} : ConstantAbstractDomain C :=
  ConstantAbstractDomain.Top

/-- Source `ConstantAbstractDomain(const Constant&)` (lines 119-121): wrap the
constant with `set_to_value`. -/
def ConstantAbstractDomain.ofConstant {C : Type} (cst : C) :
    ConstantAbstractDomain C :=
  ConstantAbstractDomain.Value (acd_impl.ConstantAbstractValue.mk cst)

/-- Source `ConstantAbstractDomain()` (line 117): the default constructor calls
`set_to_top`, so the resulting element carries the Top tag. -/
def ConstantAbstractDomain.mkDefault {C : Type} : ConstantAbstractDomain C :=
  ConstantAbstractDomain.Top

/-- Source `ConstantAbstractDomain::get_constant` (lines 127-131): the wrapped
constant when the kind is Value, `boost::none` otherwise. -/
def ConstantAbstractDomain.get_constant {C : Type} :
    ConstantAbstractDomain C → Option C
  | ConstantAbstractDomain.Value v => some v.get_constant
  | _ => none

/-- Modelled from the spec: the scaffolding lifts the value-level `join_with`
to a domain-level join: if either operand is Top the result is Top, if
either is Bottom the result is the other operand, and two Value operands are
combined with `acd_impl.ConstantAbstractValue.join_with`, the receiver
keeping its constant when the resulting kind stays Value. -/
def ConstantAbstractDomain.join {C : Type} [DecidableEq C] :
    ConstantAbstractDomain C → ConstantAbstractDomain C →
      ConstantAbstractDomain C
  | ConstantAbstractDomain.Top, _ => ConstantAbstractDomain.Top
  | _, ConstantAbstractDomain.Top => ConstantAbstractDomain.Top
  | ConstantAbstractDomain.Bottom, x => x
  | x, ConstantAbstractDomain.Bottom => x
  | ConstantAbstractDomain.Value a, ConstantAbstractDomain.Value b =>
      match a.join_with b with
      | Kind.Bottom => ConstantAbstractDomain.Bottom
      | Kind.Value => ConstantAbstractDomain.Value a
      | Kind.Top => ConstantAbstractDomain.Top

/-- Modelled from the spec: the dual lifting for meet: Bottom dominates, Top
is neutral, and two Value operands are combined with
`acd_impl.ConstantAbstractValue.meet_with`. -/
def ConstantAbstractDomain.meet {C : Type} [DecidableEq C] :
    ConstantAbstractDomain C → ConstantAbstractDomain C →
      ConstantAbstractDomain C
  | ConstantAbstractDomain.Bottom, _ => ConstantAbstractDomain.Bottom
  | _, ConstantAbstractDomain.Bottom => ConstantAbstractDomain.Bottom
  | ConstantAbstractDomain.Top, x => x
  | x, ConstantAbstractDomain.Top => x
  | ConstantAbstractDomain.Value a, ConstantAbstractDomain.Value b =>
      match a.meet_with b with
      | Kind.Bottom => ConstantAbstractDomain.Bottom
      | Kind.Value => ConstantAbstractDomain.Value a
      | Kind.Top => ConstantAbstractDomain.Top

/-- Modelled from the spec: widening is lifted exactly like join, but through
the value-level `widen_with`. -/
def ConstantAbstractDomain.widen {C : Type} [DecidableEq C] :
    ConstantAbstractDomain C → ConstantAbstractDomain C →
      ConstantAbstractDomain C
  | ConstantAbstractDomain.Top, _ => ConstantAbstractDomain.Top
  | _, ConstantAbstractDomain.Top => ConstantAbstractDomain.Top
  | ConstantAbstractDomain.Bottom, x => x
  | x, ConstantAbstractDomain.Bottom => x
  | ConstantAbstractDomain.Value a, ConstantAbstractDomain.Value b =>
      match a.widen_with b with
      | Kind.Bottom => ConstantAbstractDomain.Bottom
      | Kind.Value => ConstantAbstractDomain.Value a
      | Kind.Top => ConstantAbstractDomain.Top

/-- Modelled from the spec: narrowing is lifted exactly like meet, but
through the value-level `narrow_with`. -/
def ConstantAbstractDomain.narrow {C : Type} [DecidableEq C] :
    ConstantAbstractDomain C → ConstantAbstractDomain C →
      ConstantAbstractDomain C
  | ConstantAbstractDomain.Bottom, _ => ConstantAbstractDomain.Bottom
  | _, ConstantAbstractDomain.Bottom => ConstantAbstractDomain.Bottom
  | ConstantAbstractDomain.Top, x => x
  | x, ConstantAbstractDomain.Top => x
  | ConstantAbstractDomain.Value a, ConstantAbstractDomain.Value b =>
      match a.narrow_with b with
      | Kind.Bottom => ConstantAbstractDomain.Bottom
      | Kind.Value => ConstantAbstractDomain.Value a
      | Kind.Top => ConstantAbstractDomain.Top

/-- Modelled from the spec: the lifted partial-order test: Bottom is below
everything, everything is below Top, and two Value elements are compared
with the value-level `leq` (which is `equals`). -/
def ConstantAbstractDomain.leq {C : Type} [DecidableEq C] :
    ConstantAbstractDomain C → ConstantAbstractDomain C → Bool
  | ConstantAbstractDomain.Bottom, _ => true
  | _, ConstantAbstractDomain.Top => true
  | ConstantAbstractDomain.Value a, ConstantAbstractDomain.Value b =>
      a.leq b
  | _, _ => false

/-- Source `operator<<` and `ConstantAbstractDomain::str` (lines 144-170): print the
underscore-bar-underscore rendering for Bottom, `T` for Top, and the
constant's own rendering for Value; the constant's `operator<<` is passed in
as the rendering function `pr`. -/
def ConstantAbstractDomain.str {C : Type} (pr : C → String) :
    ConstantAbstractDomain C → String
  | ConstantAbstractDomain.Bottom => "_|_"
  | ConstantAbstractDomain.Top => "T"
  | ConstantAbstractDomain.Value v => pr v.get_constant

/-- The integer-constant instantiation of the rendering, the `int` case of
the example in the header comment (line 39). -/
def ConstantAbstractDomain.strInt : ConstantAbstractDomain Int → String :=
  ConstantAbstractDomain.str (fun n => toString n)

/-- Source `EdgeType` (`ControlFlow.h` line 36). -/
inductive EdgeType where
  | EDGE_GOTO : EdgeType
  | EDGE_BRANCH : EdgeType
  | EDGE_THROW : EdgeType
  | EDGE_TYPE_SIZE : EdgeType
deriving DecidableEq, Repr

/-- Source `cfg::BlockId` (`ControlFlow.h` line 64): `size_t`. `Block*` pointers are
modelled as the pointed-to block's id; the owning graph plays the role of the
heap, so a pointer dereference is a lookup in the graph's block map. -/
abbrev BlockId : Type := Nat

/-- Source `cfg::Edge` (`ControlFlow.h` lines 47-62): a directed connection between
two blocks, with the `Block*` endpoints modelled as block ids. -/
structure Edge where
  m_src : BlockId
  m_target : BlockId
  m_type : EdgeType
deriving DecidableEq, Repr

/-- Source `Edge::src` (line 59). -/
def Edge.src (e : Edge) : BlockId := e.m_src

/-- Source `Edge::target` (line 60). -/
def Edge.target (e : Edge) : BlockId := e.m_target

/-- Source `Edge::type` (line 61). -/
def Edge.type (e : Edge) : EdgeType := e.m_type

/-- Source `Edge::operator==` (lines 55-58): same source pointer, same target
pointer, same type. -/
def Edge.eqOp (a b : Edge) : Bool :=
  decide (a.m_src = b.m_src) && decide (a.m_target = b.m_target) &&
    decide (a.m_type = b.m_type)

/-- Source `Block` (`ControlFlow.h` lines 77-138) in editable mode: the block owns
its entries (`m_entries`). The entry type `α` stands for the opaque
`MethodItemEntry`; `m_entries` is modelled as the list of the block's
instruction entries, the view that the `ir_list` instruction iterators
expose. -/
structure Block (α : Type) where
  m_id : BlockId
  m_entries : List α
  m_preds : List Edge
  m_succs : List Edge
deriving DecidableEq

/-- Source `Block::id` (line 82). -/
def Block.id {α : Type} (b : Block α) : BlockId := b.m_id

/-- Source `Block::preds` (lines 83-85). -/
def Block.preds {α : Type} (b : Block α) : List Edge := b.m_preds

/-- Source `Block::succs` (lines 86-88). -/
def Block.succs {α : Type} (b : Block α) : List Edge := b.m_succs

/-- Source `ControlFlowGraph` (`ControlFlow.h` lines 145-271): the ordered mapping
`m_blocks` from block id to block (modelled as the list of blocks in
ascending-id order, the iteration order of the `std::map`), the entry and
exit block pointers, and the editable flag. -/
structure ControlFlowGraph (α : Type) where
  m_blocks : List (Block α)
  m_entry_block : BlockId
  m_exit_block : BlockId
  m_editable : Bool
deriving DecidableEq

/-- Source `ControlFlowGraph::entry_block` (lines 166-168). -/
def ControlFlowGraph.entry_block {α : Type} (g : ControlFlowGraph α) :
    BlockId :=
  g.m_entry_block

/-- Source `ControlFlowGraph::exit_block` (lines 167-169). -/
def ControlFlowGraph.exit_block {α : Type} (g : ControlFlowGraph α) :
    BlockId :=
  g.m_exit_block

/-- Source `ControlFlowGraph::editable` (line 199). -/
def ControlFlowGraph.editable {α : Type} (g : ControlFlowGraph α) : Bool :=
  g.m_editable

/-- Dereference a `Block*` through its owning graph: look the id up in
`m_blocks`; `none` models a null or dangling pointer. -/
def ControlFlowGraph.derefBlock {α : Type} (g : ControlFlowGraph α)
    (b : BlockId) : Option (Block α) :=
  g.m_blocks.find? (fun blk => blk.m_id == b)

namespace GraphInterface

/-- Source `GraphInterface::entry` (`ControlFlow.h` lines 283-285): the graph's
entry block pointer. -/
def entry {α : Type} (g : ControlFlowGraph α) : BlockId :=
  g.entry_block

/-- Source `GraphInterface::exit` (lines 286-288): the graph's exit block
pointer. -/
def exit {α : Type} (g : ControlFlowGraph α) : BlockId :=
  g.exit_block

/-- Source `GraphInterface::predecessors` (lines 289-291): `b->preds()`; the
pointer dereference goes through the owning graph, which models the heap. -/
def predecessors {α : Type} (g : ControlFlowGraph α) (b : BlockId) :
    Option (List Edge) :=
  (g.derefBlock b).map Block.preds

/-- Source `GraphInterface::successors` (lines 292-294): `b->succs()`. -/
def successors {α : Type} (g : ControlFlowGraph α) (b : BlockId) :
    Option (List Edge) :=
  (g.derefBlock b).map Block.succs

/-- Source `GraphInterface::source` (line 295): `e->src()`. -/
def source {α : Type} (_ : ControlFlowGraph α) (e : Edge) : BlockId :=
  e.src

/-- Source `GraphInterface::target` (line 296): `e->target()`. -/
def target {α : Type} (_ : ControlFlowGraph α) (e : Edge) : BlockId :=
  e.target

end GraphInterface

/-- The per-block instruction lists of a graph in `m_blocks` order: the view
walked by `cfg::InstructionIteratorImpl`. Modelled from the spec where
`ir_list` is concerned: `IRList.h` is not part of this source tree, so a
block-level instruction iterable is its entry list with positional
iterators, `begin` at position 0 and `end` at the list's length; the
default-constructed iterator used at the end state is position 0. -/
def blockLists {α : Type} (g : ControlFlowGraph α) : List (List α) :=
  g.m_blocks.map Block.m_entries

/-- Source `InstructionIteratorImpl::to_next_block` (`ControlFlow.h` lines
319-332), loop body: while the current block exists and the inner position
sits at its block's end, move to the beginning of the next block (or to the
default position 0 when the block collection is exhausted). The while loop
is embedded with explicit fuel. -/
def to_next_block_fuel {α : Type} (bs : List (List α)) :
    Nat → Nat → Nat → Nat × Nat
  | 0, b, p => (b, p)
  | fuel+1, b, p =>
      if b < bs.length ∧ p = (bs.getD b []).length then
        to_next_block_fuel bs fuel (b+1) 0
      else (b, p)

/-- Source `InstructionIteratorImpl::to_next_block`: the loop runs at most once per
remaining block, so fuel `bs.length - b` is exact. -/
def to_next_block {α : Type} (bs : List (List α)) (b p : Nat) : Nat × Nat :=
  to_next_block_fuel bs (bs.length - b) b p

/-- Source `InstructionIteratorImpl::assert_not_end` (lines 382-387): true exactly
when both `always_assert` conditions hold, i.e. the block cursor is not at
the end of the block map and the inner cursor is not at the end of the
current block's instruction iterable. -/
def assert_not_end {α : Type} (bs : List (List α)) (b p : Nat) : Bool :=
  decide (b < bs.length) && decide (p ≠ (bs.getD b []).length)

/-- Source `InstructionIteratorImpl::operator*` (lines 367-370): assert not at end,
then dereference the inner iterator; `none` models the fatal
`always_assert` abort. -/
def derefIter {α : Type} (bs : List (List α)) (b p : Nat) : Option α :=
  if assert_not_end bs b p then (bs.getD b [])[p]? else none

/-- Source `InstructionIteratorImpl::operator++` (lines 354-359): assert not at
end, advance the inner iterator, then `to_next_block`; `none` models the
fatal `always_assert` abort. -/
def iterNext {α : Type} (bs : List (List α)) (b p : Nat) :
    Option (Nat × Nat) :=
  if assert_not_end bs b p then some (to_next_block bs b (p+1)) else none

/-- The iterator constructor (lines 342-352): `always_assert` that the graph
is editable (`none` models the abort). With `is_begin`, the state is the
first position of the first block — dereferencing `m_blocks.begin()` on a
graph with no blocks is undefined behaviour, also modelled as `none` — and
otherwise the end state (block cursor past the last block, inner cursor
default-constructed). The constructor does not call `to_next_block`. -/
def iterCtor {α : Type} (g : ControlFlowGraph α) (is_begin : Bool) :
    Option (Nat × Nat) :=
  if g.editable = false then none
  else if is_begin then
    match g.m_blocks with
    | [] => none
    | _ :: _ => some (0, 0)
  else some (g.m_blocks.length, 0)

/-- Run the forward iteration from state `(b, p)`: while the iterator
differs from the end iterator (`operator==` compares the block cursor and
the inner cursor), dereference and advance; `none` models an abort at any
step. The fuel is an upper bound on the number of loop steps. -/
def collectIter {α : Type} (bs : List (List α)) :
    Nat → Nat → Nat → Option (List α)
  | 0, _, _ => none
  | fuel+1, b, p =>
      if b = bs.length ∧ p = 0 then some []
      else
        match derefIter bs b p, iterNext bs b p with
        | some x, some st => (collectIter bs fuel st.1 st.2).map
            (fun xs => x :: xs)
        | _, _ => none

/-- Iterate the flattened instruction view of graph `g` from `begin()` to
`end()`, collecting each dereferenced entry; `none` models a fatal abort
along the way. -/
def iterInstructions {α : Type} (g : ControlFlowGraph α) : Option (List α) :=
  match iterCtor g true with
  | none => none
  | some st =>
      collectIter (blockLists g)
        ((blockLists g).flatten.length + (blockLists g).length + 1) st.1 st.2

/-- C1: for every pair of lattice elements, join and meet follow the
flat-lattice truth tables: join returns Top if either operand is Top,
returns the other operand if either is Bottom, keeps an equal Value, and
sends two unequal Values to Top; meet is the dual, with Bottom dominating,
Top neutral, equal Values kept and unequal Values collapsed to Bottom. -/
theorem C1_join_meet_truth_tables {C : Type} [DecidableEq C]
    (x : ConstantAbstractDomain C) (a b : C) (hab : a ≠ b) :
    ConstantAbstractDomain.join ConstantAbstractDomain.Top x =
        ConstantAbstractDomain.Top ∧
    ConstantAbstractDomain.join x ConstantAbstractDomain.Top =
        ConstantAbstractDomain.Top ∧
    ConstantAbstractDomain.join ConstantAbstractDomain.Bottom x = x ∧
    ConstantAbstractDomain.join x ConstantAbstractDomain.Bottom = x ∧
    ConstantAbstractDomain.join (ConstantAbstractDomain.ofConstant a)
        (ConstantAbstractDomain.ofConstant a) =
      ConstantAbstractDomain.ofConstant a ∧
    ConstantAbstractDomain.join (ConstantAbstractDomain.ofConstant a)
        (ConstantAbstractDomain.ofConstant b) =
      ConstantAbstractDomain.Top ∧
    ConstantAbstractDomain.meet ConstantAbstractDomain.Bottom x =
        ConstantAbstractDomain.Bottom ∧
    ConstantAbstractDomain.meet x ConstantAbstractDomain.Bottom =
        ConstantAbstractDomain.Bottom ∧
    ConstantAbstractDomain.meet ConstantAbstractDomain.Top x = x ∧
    ConstantAbstractDomain.meet x ConstantAbstractDomain.Top = x ∧
    ConstantAbstractDomain.meet (ConstantAbstractDomain.ofConstant a)
        (ConstantAbstractDomain.ofConstant a) =
      ConstantAbstractDomain.ofConstant a ∧
    ConstantAbstractDomain.meet (ConstantAbstractDomain.ofConstant a)
        (ConstantAbstractDomain.ofConstant b) =
      ConstantAbstractDomain.Bottom := by
  cases x <;>
    simp [ConstantAbstractDomain.join, ConstantAbstractDomain.meet,
      ConstantAbstractDomain.ofConstant,
      acd_impl.ConstantAbstractValue.join_with,
      acd_impl.ConstantAbstractValue.meet_with,
      acd_impl.ConstantAbstractValue.equals,
      acd_impl.ConstantAbstractValue.get_constant, hab]

/-- Witness for C1 at the integer instantiation with constants 1 and 2. -/
theorem C1_join_meet_truth_tables_witness :
    (1 : Int) ≠ 2 ∧
    ConstantAbstractDomain.join (ConstantAbstractDomain.ofConstant (1 : Int))
        (ConstantAbstractDomain.ofConstant 2) =
      ConstantAbstractDomain.Top :=
  ⟨by decide,
    (C1_join_meet_truth_tables ConstantAbstractDomain.Top 1 2
        (by decide)).2.2.2.2.2.1⟩

/-- C3: `get_constant` returns the wrapped constant exactly when the tag is
Value and otherwise an explicit no-value result, never an error: the result
is `none` exactly when the kind is not Value, it is `some x` exactly on the
element wrapping `x`, constructing from a constant and reading it back gives
that constant, and `top()` and `bottom()` both read back as `none`. -/
theorem C3_get_constant_total {C : Type} (c : C)
    (d : ConstantAbstractDomain C) :
    (d.get_constant = none ↔ d.kind ≠ Kind.Value) ∧
    (∀ x : C, d.get_constant = some x ↔
      d = ConstantAbstractDomain.Value
            (acd_impl.ConstantAbstractValue.mk x)) ∧
    (ConstantAbstractDomain.ofConstant c).get_constant = some c ∧
    (ConstantAbstractDomain.top : ConstantAbstractDomain C).get_constant =
      none ∧
    (ConstantAbstractDomain.bottom :
        ConstantAbstractDomain C).get_constant = none := by
  refine ⟨?_, ?_, ?_, ?_, ?_⟩
  · cases d <;> simp [ConstantAbstractDomain.get_constant,
      ConstantAbstractDomain.kind]
  · intro x
    cases d with
    | Bottom => simp [ConstantAbstractDomain.get_constant]
    | Top => simp [ConstantAbstractDomain.get_constant]
    | Value v =>
        cases v with
        | mk cst =>
            simp [ConstantAbstractDomain.get_constant,
              acd_impl.ConstantAbstractValue.get_constant, eq_comm]
  · simp [ConstantAbstractDomain.get_constant,
      ConstantAbstractDomain.ofConstant,
      acd_impl.ConstantAbstractValue.get_constant]
  · simp [ConstantAbstractDomain.get_constant, ConstantAbstractDomain.top]
  · simp [ConstantAbstractDomain.get_constant,
      ConstantAbstractDomain.bottom]

/-- C4: widening coincides with join and narrowing with meet, elementwise on
the whole domain. -/
theorem C4_widen_is_join_narrow_is_meet {C : Type} [DecidableEq C]
    (x y : ConstantAbstractDomain C) :
    ConstantAbstractDomain.widen x y = ConstantAbstractDomain.join x y ∧
    ConstantAbstractDomain.narrow x y = ConstantAbstractDomain.meet x y := by
  cases x <;> cases y <;>
    simp [ConstantAbstractDomain.widen, ConstantAbstractDomain.join,
      ConstantAbstractDomain.narrow, ConstantAbstractDomain.meet,
      acd_impl.ConstantAbstractValue.widen_with,
      acd_impl.ConstantAbstractValue.narrow_with]

/-- C5: the partial-order test holds between two Value elements exactly when
their constants are equal, Bottom is below everything, everything is below
Top, Top is not below Bottom or a Value, a Value is not below Bottom, and
the order is reflexive. -/
theorem C5_leq_flat_order {C : Type} [DecidableEq C]
    (x : ConstantAbstractDomain C) (a b : C) :
    (ConstantAbstractDomain.leq (ConstantAbstractDomain.ofConstant a)
        (ConstantAbstractDomain.ofConstant b) = true ↔ a = b) ∧
    ConstantAbstractDomain.leq ConstantAbstractDomain.Bottom x = true ∧
    ConstantAbstractDomain.leq x ConstantAbstractDomain.Top = true ∧
    ConstantAbstractDomain.leq
        (ConstantAbstractDomain.Top : ConstantAbstractDomain C)
        ConstantAbstractDomain.Bottom = false ∧
    ConstantAbstractDomain.leq ConstantAbstractDomain.Top
        (ConstantAbstractDomain.ofConstant a) = false ∧
    ConstantAbstractDomain.leq (ConstantAbstractDomain.ofConstant a)
        ConstantAbstractDomain.Bottom = false ∧
    ConstantAbstractDomain.leq x x = true := by
  refine ⟨?_, ?_, ?_, ?_, ?_, ?_, ?_⟩ <;>
    cases x <;>
      simp [ConstantAbstractDomain.leq, ConstantAbstractDomain.ofConstant,
        acd_impl.ConstantAbstractValue.leq,
        acd_impl.ConstantAbstractValue.equals,
        acd_impl.ConstantAbstractValue.get_constant]

/-- C6: the string rendering prints exactly the underscore-bar-underscore
symbol for Bottom, exactly `T` for Top, and the constant's own rendering for
Value; at the integer instantiation, bottom renders as that symbol, top as
`T`, and the element wrapping 5 as `5`. -/
theorem C6_str_rendering {C : Type} (pr : C → String) (c : C) :
    ConstantAbstractDomain.str pr
        (ConstantAbstractDomain.bottom : ConstantAbstractDomain C) =
      "_|_" ∧
    ConstantAbstractDomain.str pr
        (ConstantAbstractDomain.top : ConstantAbstractDomain C) = "T" ∧
    ConstantAbstractDomain.str pr (ConstantAbstractDomain.ofConstant c) =
      pr c ∧
    ConstantAbstractDomain.strInt
        (ConstantAbstractDomain.bottom : ConstantAbstractDomain Int) =
      "_|_" ∧
    ConstantAbstractDomain.strInt
        (ConstantAbstractDomain.top : ConstantAbstractDomain Int) = "T" ∧
    ConstantAbstractDomain.strInt
        (ConstantAbstractDomain.ofConstant (5 : Int)) = "5" := by
  refine ⟨rfl, rfl, rfl, rfl, rfl, ?_⟩
  decide

/-- C10: a default-constructed element is Top, not Bottom: it equals
`top()`, differs from `bottom()`, its constant query answers `none`, and it
renders as `T`. -/
theorem C10_default_constructed_is_top {C : Type} (pr : C → String) :
    (ConstantAbstractDomain.mkDefault : ConstantAbstractDomain C) =
      ConstantAbstractDomain.top ∧
    (ConstantAbstractDomain.mkDefault : ConstantAbstractDomain C) ≠
      ConstantAbstractDomain.bottom ∧
    (ConstantAbstractDomain.mkDefault :
        ConstantAbstractDomain C).get_constant = none ∧
    ConstantAbstractDomain.str pr
        (ConstantAbstractDomain.mkDefault : ConstantAbstractDomain C) =
      "T" := by
  refine ⟨rfl, ?_, rfl, rfl⟩
  simp [ConstantAbstractDomain.mkDefault, ConstantAbstractDomain.bottom]

/-- Auxiliary: flattening a dropped suffix peels off the list at the
cursor (an absent position contributes the empty list). -/
theorem flatten_drop {α : Type} :
    ∀ (bs : List (List α)) (i : Nat),
      (bs.drop i).flatten = bs.getD i [] ++ (bs.drop (i+1)).flatten := by
  intro bs
  induction bs with
  | nil => intro i; simp
  | cons l t ih =>
      intro i
      cases i with
      | zero => simp
      | succ j => simpa using ih j

/-- The entries the iteration still has to visit from state `(b, p)`: the
rest of the current block, then all later blocks. -/
def remEntries {α : Type} (bs : List (List α)) (b p : Nat) : List α :=
  (bs.getD b []).drop p ++ (bs.drop (b+1)).flatten

/-- The states the iteration actually passes through after a successful
advance: the end state, or a position strictly inside an existing block. -/
def NormalState {α : Type} (bs : List (List α)) (b p : Nat) : Prop :=
  (b = bs.length ∧ p = 0) ∨
  (b < bs.length ∧ p < (bs.getD b []).length)

/-- The block-skipping loop, run with enough fuel from a position at most
one past the current block's entries, lands in a normal state, preserves
the remaining-entries view, and never moves the block cursor backwards. -/
theorem to_next_block_fuel_spec {α : Type} (bs : List (List α)) :
    ∀ (fuel b p : Nat), bs.length - b ≤ fuel → b ≤ bs.length →
      p ≤ (bs.getD b []).length → (b = bs.length → p = 0) →
      NormalState bs (to_next_block_fuel bs fuel b p).1
          (to_next_block_fuel bs fuel b p).2 ∧
      remEntries bs (to_next_block_fuel bs fuel b p).1
          (to_next_block_fuel bs fuel b p).2 = remEntries bs b p ∧
      b ≤ (to_next_block_fuel bs fuel b p).1 := by
  intro fuel
  induction fuel with
  | zero =>
      intro b p hf hb hp hbp
      have hbl : b = bs.length := by omega
      have hp0 : p = 0 := hbp hbl
      exact ⟨Or.inl ⟨hbl, hp0⟩, rfl, Nat.le_refl b⟩
  | succ f ih =>
      intro b p hf hb hp hbp
      simp only [to_next_block_fuel]
      by_cases hcond : b < bs.length ∧ p = (bs.getD b []).length
      · rw [if_pos hcond]
        have h1 : bs.length - (b+1) ≤ f := by omega
        have h2 : b + 1 ≤ bs.length := hcond.1
        obtain ⟨hN, hR, hL⟩ := ih (b+1) 0 h1 h2 (Nat.zero_le _)
          (fun _ => rfl)
        refine ⟨hN, ?_, Nat.le_trans (Nat.le_succ b) hL⟩
        rw [hR]
        simp only [remEntries, hcond.2, List.drop_length,
          List.nil_append, List.drop_zero]
        exact (flatten_drop bs (b+1)).symm
      · rw [if_neg hcond]
        refine ⟨?_, rfl, Nat.le_refl b⟩
        rcases Nat.lt_or_ge b bs.length with hlt | hge
        · have hne : p ≠ (bs.getD b []).length := fun hpe =>
            hcond ⟨hlt, hpe⟩
          exact Or.inr ⟨hlt, Nat.lt_of_le_of_ne hp hne⟩
        · have hbl : b = bs.length := Nat.le_antisymm hb hge
          exact Or.inl ⟨hbl, hbp hbl⟩

/-- Source `to_next_block` itself (called during `operator++` from a position at
most one past the entries of an existing block): normal result, remaining
view preserved, block cursor monotone. -/
theorem to_next_block_spec {α : Type} (bs : List (List α)) (b p : Nat)
    (hb : b < bs.length) (hp : p ≤ (bs.getD b []).length) :
    NormalState bs (to_next_block bs b p).1 (to_next_block bs b p).2 ∧
    remEntries bs (to_next_block bs b p).1 (to_next_block bs b p).2 =
      remEntries bs b p ∧
    b ≤ (to_next_block bs b p).1 :=
  to_next_block_fuel_spec bs (bs.length - b) b p (Nat.le_refl _)
    (Nat.le_of_lt hb) hp (fun h => absurd h (Nat.ne_of_lt hb))

/-- Running the iteration loop from a normal state with enough fuel aborts
nowhere and collects exactly the remaining entries. -/
theorem collectIter_spec {α : Type} (bs : List (List α)) :
    ∀ (fuel b p : Nat), NormalState bs b p →
      (remEntries bs b p).length + (bs.length - b) < fuel →
      collectIter bs fuel b p = some (remEntries bs b p) := by
  intro fuel
  induction fuel with
  | zero =>
      intro b p _ hf
      exact absurd hf (Nat.not_lt_zero _)
  | succ f ih =>
      intro b p hN hf
      simp only [collectIter]
      rcases hN with ⟨hbl, hp0⟩ | ⟨hb, hp⟩
      · rw [if_pos ⟨hbl, hp0⟩]
        have hrem : remEntries bs b p = [] := by
          have h1 : bs.getD b [] = [] :=
            List.getD_eq_default _ _ (by omega)
          have h2 : bs.drop (b+1) = [] :=
            List.drop_eq_nil_of_le (by omega)
          simp only [remEntries]
          rw [h1, h2]
          simp
        rw [hrem]
      · have hcond : ¬(b = bs.length ∧ p = 0) := fun hc => by omega
        rw [if_neg hcond]
        have hassert : assert_not_end bs b p = true := by
          simp only [assert_not_end, Bool.and_eq_true, decide_eq_true_eq]
          exact ⟨hb, Nat.ne_of_lt hp⟩
        have hderef : derefIter bs b p = some ((bs.getD b [])[p]) := by
          simp [derefIter, hassert, List.getElem?_eq_getElem hp]
        have hnext : iterNext bs b p = some (to_next_block bs b (p+1)) := by
          simp [iterNext, hassert]
        rw [hderef, hnext]
        obtain ⟨hN2, hR2, hL2⟩ := to_next_block_spec bs b (p+1) hb
          (Nat.succ_le_of_lt hp)
        have hcons : remEntries bs b p =
            (bs.getD b [])[p] :: remEntries bs b (p+1) := by
          unfold remEntries
          rw [List.drop_eq_getElem_cons hp, List.cons_append]
        have hlen1 : (remEntries bs b p).length =
            (remEntries bs b (p+1)).length + 1 := by
          rw [hcons]; simp
        have hfuel : (remEntries bs (to_next_block bs b (p+1)).1
              (to_next_block bs b (p+1)).2).length +
            (bs.length - (to_next_block bs b (p+1)).1) < f := by
          rw [hR2]
          omega
        have hIH := ih (to_next_block bs b (p+1)).1
          (to_next_block bs b (p+1)).2 hN2 hfuel
        show (collectIter bs f (to_next_block bs b (p+1)).1
            (to_next_block bs b (p+1)).2).map
            (fun xs => (bs.getD b [])[p] :: xs) =
          some (remEntries bs b p)
        rw [hIH, hR2]
        simp [hcons]

/-- A concrete editable graph with blocks holding 2, 0 and 3 instruction
entries, the shape of the iteration example in the spec. -/
def exampleGraph : ControlFlowGraph Nat :=
  ControlFlowGraph.mk
    [Block.mk 0 [10, 11] [] [Edge.mk 0 1 EdgeType.EDGE_GOTO],
     Block.mk 1 [] [Edge.mk 0 1 EdgeType.EDGE_GOTO]
       [Edge.mk 1 2 EdgeType.EDGE_GOTO],
     Block.mk 2 [20, 21, 22] [Edge.mk 1 2 EdgeType.EDGE_GOTO] []]
    0 2 true

/-- A concrete editable graph whose first block has no instruction
entries. -/
def emptyFirstBlockGraph : ControlFlowGraph Nat :=
  ControlFlowGraph.mk
    [Block.mk 0 [] [] [], Block.mk 1 [5] [] []]
    0 1 true

/-- A concrete non-editable graph. -/
def nonEditableGraph : ControlFlowGraph Nat :=
  ControlFlowGraph.mk [Block.mk 0 [7] [] []] 0 0 false

/-- C2 (amended): for every editable graph whose block collection is
nonempty and whose first block has at least one instruction entry, iterating
the flattened instruction view from `begin()` to `end()` yields exactly the
concatenation of each block's instruction entries in block-collection order,
silently skipping every later block with no entries. (As stated over every
editable graph the property fails: the begin constructor does not skip an
empty first block, so the first dereference aborts there.) -/
theorem C2_instruction_iteration_flattens {α : Type}
    (g : ControlFlowGraph α) (hed : g.m_editable = true)
    (hne : g.m_blocks ≠ []) (hfirst : (blockLists g).getD 0 [] ≠ []) :
    iterInstructions g = some (blockLists g).flatten := by
  obtain ⟨blk, rest, hbk⟩ := List.exists_cons_of_ne_nil hne
  have hctor : iterCtor g true = some (0, 0) := by
    simp [iterCtor, ControlFlowGraph.editable, hed, hbk]
  have hlen : 0 < (blockLists g).length := by
    simp [blockLists, hbk]
  have hfl : 0 < ((blockLists g).getD 0 []).length :=
    List.length_pos.mpr hfirst
  have hN : NormalState (blockLists g) 0 0 := Or.inr ⟨hlen, hfl⟩
  have hrem : remEntries (blockLists g) 0 0 = (blockLists g).flatten := by
    unfold remEntries
    rw [List.drop_zero]
    have h0 : (blockLists g).drop 0 = blockLists g := List.drop_zero _
    have := flatten_drop (blockLists g) 0
    rw [h0] at this
    exact this.symm
  have hcol := collectIter_spec (blockLists g)
    ((blockLists g).flatten.length + (blockLists g).length + 1) 0 0 hN
    (by rw [hrem]; omega)
  simp only [iterInstructions, hctor]
  rw [hcol, hrem]

/-- Witness for C2 at the spec's example shape: an editable graph with
blocks holding 2, 0 and 3 instruction entries, whose iteration yields
exactly the 5 entries in block order. -/
theorem C2_instruction_iteration_flattens_witness :
    exampleGraph.m_editable = true ∧
    exampleGraph.m_blocks ≠ [] ∧
    (blockLists exampleGraph).getD 0 [] ≠ [] ∧
    (blockLists exampleGraph).map List.length = [2, 0, 3] ∧
    iterInstructions exampleGraph = some (blockLists exampleGraph).flatten ∧
    (blockLists exampleGraph).flatten = [10, 11, 20, 21, 22] :=
  ⟨rfl, by decide, by decide, by decide,
    C2_instruction_iteration_flattens exampleGraph rfl (by decide)
      (by decide),
    by decide⟩

/-- Counterexample to C2 as stated: on an editable graph whose first block
has no instruction entries, the iteration from `begin()` aborts (the begin
constructor leaves the inner cursor at the first block's end and the first
dereference fails `assert_not_end`), so it does not yield the concatenation
of the blocks' entries. -/
theorem C2_instruction_iteration_counterexample :
    emptyFirstBlockGraph.m_editable = true ∧
    iterInstructions emptyFirstBlockGraph = none ∧
    (blockLists emptyFirstBlockGraph).flatten = [5] ∧
    iterInstructions emptyFirstBlockGraph ≠
      some (blockLists emptyFirstBlockGraph).flatten :=
  ⟨rfl, by decide, by decide, by decide⟩

/-- C7: iterator misuse is fatal, never recoverable: dereferencing the end
iterator aborts, advancing the end iterator aborts, and constructing either
end of the instruction-iteration view over a non-editable graph aborts (the
`always_assert` aborts are modelled by the `none` result). -/
theorem C7_iterator_misuse_is_fatal {α : Type} (g h : ControlFlowGraph α)
    (hne : h.m_editable = false) :
    derefIter (blockLists g) (blockLists g).length 0 = none ∧
    iterNext (blockLists g) (blockLists g).length 0 = none ∧
    iterCtor h true = none ∧
    iterCtor h false = none := by
  refine ⟨?_, ?_, ?_, ?_⟩
  · simp [derefIter, assert_not_end]
  · simp [iterNext, assert_not_end]
  · simp [iterCtor, ControlFlowGraph.editable, hne]
  · simp [iterCtor, ControlFlowGraph.editable, hne]

/-- Witness for C7: the non-editable graph really is non-editable, and the
begin construction over it aborts. -/
theorem C7_iterator_misuse_is_fatal_witness :
    nonEditableGraph.m_editable = false ∧
    iterCtor nonEditableGraph true = none :=
  ⟨rfl, (C7_iterator_misuse_is_fatal exampleGraph nonEditableGraph
      rfl).2.2.1⟩

/-- C8: the `GraphInterface` adapter is a pure projection onto the graph
model: `entry` and `exit` return the graph's entry and exit block pointers,
`predecessors` and `successors` return the dereferenced block's incoming and
outgoing edge lists, and `source` and `target` return the edge's endpoint
pointers; being plain functions of their arguments they cannot mutate the
graph. -/
theorem C8_graph_interface_is_projection {α : Type}
    (g : ControlFlowGraph α) (b : Block α) (e : Edge)
    (hb : g.derefBlock b.m_id = some b) :
    GraphInterface.entry g = g.m_entry_block ∧
    GraphInterface.exit g = g.m_exit_block ∧
    GraphInterface.predecessors g b.m_id = some b.m_preds ∧
    GraphInterface.successors g b.m_id = some b.m_succs ∧
    GraphInterface.source g e = e.m_src ∧
    GraphInterface.target g e = e.m_target := by
  refine ⟨rfl, rfl, ?_, ?_, rfl, rfl⟩
  · simp [GraphInterface.predecessors, hb, Block.preds]
  · simp [GraphInterface.successors, hb, Block.succs]

/-- Witness for C8 at the example graph and its block 1. -/
theorem C8_graph_interface_is_projection_witness :
    exampleGraph.derefBlock 1 =
      some (Block.mk 1 [] [Edge.mk 0 1 EdgeType.EDGE_GOTO]
        [Edge.mk 1 2 EdgeType.EDGE_GOTO]) ∧
    GraphInterface.predecessors exampleGraph 1 =
      some [Edge.mk 0 1 EdgeType.EDGE_GOTO] :=
  ⟨by decide,
    (C8_graph_interface_is_projection exampleGraph
        (Block.mk 1 [] [Edge.mk 0 1 EdgeType.EDGE_GOTO]
          [Edge.mk 1 2 EdgeType.EDGE_GOTO])
        (Edge.mk 0 1 EdgeType.EDGE_GOTO) (by decide)).2.2.1⟩

/-- C9: edges are immutable records of their construction arguments and
compare structurally: the accessors return exactly the constructor
arguments, and `operator==` holds exactly when the two edges have the same
source block, the same target block and the same edge type, i.e. exactly
when they are equal as records. -/
theorem C9_edge_immutable_structural_equality (s t : BlockId)
    (ty : EdgeType) (e1 e2 : Edge) :
    (Edge.mk s t ty).src = s ∧
    (Edge.mk s t ty).target = t ∧
    (Edge.mk s t ty).type = ty ∧
    (Edge.eqOp e1 e2 = true ↔
      e1.m_src = e2.m_src ∧ e1.m_target = e2.m_target ∧
        e1.m_type = e2.m_type) ∧
    (Edge.eqOp e1 e2 = true ↔ e1 = e2) := by
  refine ⟨rfl, rfl, rfl, ?_, ?_⟩
  · simp [Edge.eqOp, and_assoc]
  · cases e1
    cases e2
    simp [Edge.eqOp, and_assoc]

end Redex
